import Mathlib

/-!
Verification of the constant-depth circuit construction and synthesis loop

This file embeds the core of `Constant_Depth_w_QSearch_XY_Demo.ipynb`:
the matchgate-ansatz builders (`make_matchgate`, `make_layertype1`,
`make_layertype2`, `make_MGC`), the per-timestep synthesis retry loop
around the multistart solver, and the matrix semantics of the gate trees.

Gate trees are built by the notebook through the qsearch gate
constructors.  Following the spec's GateNode data model (`Tensor` /
`Sequence` nodes for the external gate library), `KroneckerGate(a, b)` is
embedded as `Gate.kron a b` and `ProductGate(a₁, …, aₖ)` as
`Gate.prod [a₁, …, aₖ]`; the parameterized one-qubit rotations `ZGate()`
and `XGate()` become `Gate.rz` / `Gate.rx` (one parameter each),
`CNOTGate()` becomes `Gate.cnot` and `IdentityGate()` becomes
`Gate.identity` (no parameters).

Python code that reads an unbound local variable (which raises
`UnboundLocalError`) is embedded with `Option`: the accumulator of a
loop that may never run is `none` until first assigned, and reading it
while `none` propagates `none`.

Floating point distances of the retry loop are modelled as rationals;
real gate angles are modelled as real numbers.
-/

inductive Gate where
  | identity : Gate
  | rz : Gate
  | rx : Gate
  | cnot : Gate
  | kron : Gate → Gate → Gate
  | prod : List Gate → Gate
deriving Repr

/-- Number of qubits a gate acts on, as computed by qsearch:
rotations and the identity are one-qubit, CNOT is two-qubit, a Kronecker
node sums its children, and a product node takes the count of its first
factor. -/
def Gate.qudits : Gate → Nat
  | .identity => 1
  | .rz => 1
  | .rx => 1
  | .cnot => 2
  | .kron a b => a.qudits + b.qudits
  | .prod [] => 0
  | .prod (g :: _) => g.qudits

mutual

/-- Number of real parameters a gate consumes (qsearch `num_inputs`):
one per rotation leaf, summed over composite nodes. -/
def Gate.num_params : Gate → Nat
  | .identity => 0
  | .rz => 1
  | .rx => 1
  | .cnot => 0
  | .kron a b => a.num_params + b.num_params
  | .prod gs => num_params_list gs

/-- Total parameter count of a list of gates. -/
def num_params_list : List Gate → Nat
  | [] => 0
  | g :: gs => g.num_params + num_params_list gs

end

/-- The function `make_matchgate()` from the notebook:
`ProductGate(RZ_layer, RX_layer, cnot, RXRZ_layer, cnot, RX_layer, RZ_layer)`
with `RZ_layer = KroneckerGate(rz, rz)`, `RX_layer = KroneckerGate(rx, rx)`,
`RXRZ_layer = KroneckerGate(rx, rz)`. -/
def make_matchgate : Gate :=
  .prod [.kron .rz .rz, .kron .rx .rx, .cnot, .kron .rx .rz,
         .cnot, .kron .rx .rx, .kron .rz .rz]

/-- State of the loop in `make_layertype1` after `k` iterations:
`none` while the local `layer` is still unbound (the loop body never ran),
otherwise the gate built so far.  Iteration `i = 0` sets
`layer = make_matchgate()`; iteration `i ≥ 1` sets
`layer = KroneckerGate(layer, make_matchgate())`. -/
def lt1_loop : Nat → Option Gate
  | 0 => none
  | k + 1 =>
    if k = 0 then some make_matchgate
    else (lt1_loop k).map (fun l => .kron l make_matchgate)

/-- The function `make_layertype1(N)` from the notebook.  The loop runs `int(N/2)`
times; if `N` is odd the result is additionally Kronecker-padded with an
identity.  When `int(N/2) = 0` the local `layer` is never bound and the
function raises `UnboundLocalError`, embedded here as `none`. -/
def make_layertype1 (N : Nat) : Option Gate :=
  let l := lt1_loop (N / 2)
  if N % 2 ≠ 0 then l.map (fun g => .kron g .identity) else l

/-- State of the loop in `make_layertype2` after `k` iterations: the
accumulator starts at `IdentityGate()` and each iteration Kronecker-appends
a matchgate. -/
def lt2_loop : Nat → Gate
  | 0 => .identity
  | k + 1 => .kron (lt2_loop k) make_matchgate

/-- The function `make_layertype2(N)` from the notebook: starting from an identity,
append `int(N/2) - 1` matchgates and a trailing identity when `N` is even,
or `int(N/2)` matchgates when `N` is odd. -/
def make_layertype2 (N : Nat) : Gate :=
  if N % 2 = 0 then .kron (lt2_loop (N / 2 - 1)) .identity
  else lt2_loop (N / 2)

/-- State of the loop in `make_MGC` after `k` iterations (layer indices
`l < k` processed).  Layer `l = 0` initialises the circuit with
`make_layertype2(N)`; an even layer `l ≥ 2` appends `make_layertype2(N)`
with `ProductGate`; an odd layer appends `make_layertype1(N)`.  The
accumulator is `none` while the local `circuit` is unbound, and an
`UnboundLocalError` from `make_layertype1` propagates as `none`. -/
def mgc_loop (N : Nat) : Nat → Option Gate
  | 0 => none
  | k + 1 =>
    if k % 2 = 0 then
      if k = 0 then some (make_layertype2 N)
      else (mgc_loop N k).map (fun c => .prod [c, make_layertype2 N])
    else
      (mgc_loop N k).bind
        (fun c => (make_layertype1 N).map (fun l1 => .prod [c, l1]))

/-- The function `make_MGC(N)` from the notebook: run the layer loop for
`l in range(N)` and return the accumulated circuit. -/
def make_MGC (N : Nat) : Option Gate := mgc_loop N N

/-- The per-timestep structure computed inside the synthesis loop
(`circ_struct = make_MGC(N)` in cell 11): it is recomputed for every
timestep `t` but depends only on `N`. -/
def circ_struct (N : Nat) (_t : Nat) : Option Gate := make_MGC N

mutual

/-- Number of matchgate primitives occurring in a gate tree: a subtree
that is exactly `make_matchgate` counts as one primitive; other nodes sum
over their children. -/
def countPrim : Gate → Nat
  | .prod [.kron .rz .rz, .kron .rx .rx, .cnot, .kron .rx .rz,
           .cnot, .kron .rx .rx, .kron .rz .rz] => 1
  | .kron a b => countPrim a + countPrim b
  | .prod gs => countPrimList gs
  | _ => 0

/-- Sum of `countPrim` over a list of gates. -/
def countPrimList : List Gate → Nat
  | [] => 0
  | g :: gs => countPrim g + countPrimList gs

end

/-- The layer placed at layer index `l` by `make_MGC(N)`:
`make_layertype2 N` at even `l`, `make_layertype1 N` at odd `l` (odd
indices only occur for `N ≥ 2`, where `make_layertype1` succeeds; the
`getD` default is never used there). -/
def layerAt (N l : Nat) : Gate :=
  if l % 2 = 0 then make_layertype2 N else (make_layertype1 N).getD .identity

/-- Sequential stack of the layers of `make_MGC N` up to layer index `k`:
`stackTo N k` is the circuit after layers `0, …, k` have been appended. -/
def stackTo (N : Nat) : Nat → Gate
  | 0 => layerAt N 0
  | k + 1 => .prod [stackTo N k, layerAt N (k + 1)]

/-- Length of the left spine of binary sequential composition: how many
layers a gate stacks sequentially. -/
def numLayers : Gate → Nat
  | .prod [a, _] => numLayers a + 1
  | _ => 1

/-!
The synthesis retry loop (cell 11).

Per timestep the notebook runs

```
dist = 1
for _ in range(5):
    mat, vec = solv.solve_for_unitary(circ_struct, opts)
    dist_new = utils.matrix_distance_squared(mat, target_unitary)
    if dist_new < dist:
        dist = dist_new
    if dist < 1e-10:
        break
result_dict["parameters"] = vec
```

The solver is a black box; attempt `i` is modelled by the distance
`f i : ℚ` its result achieves.  The loop is embedded as a trace of pairs
`(dist_new, dist-after-update)`, one per executed attempt.
-/

/-- The retry loop, started at attempt index `i` with `fuel` remaining
iterations and current best `dist`: record `(dist_new, updated dist)` for
the attempt, stop when the updated best falls below `tol` or fuel runs
out. -/
def synthGo (f : Nat → ℚ) (tol : ℚ) : Nat → Nat → ℚ → List (ℚ × ℚ)
  | _, 0, _ => []
  | i, fuel + 1, dist =>
    let dn := f i
    let d2 := if dn < dist then dn else dist
    (dn, d2) :: (if d2 < tol then [] else synthGo f tol (i + 1) fuel d2)

/-- Full trace of one synthesis call: start with `dist = 1` and run at
most `maxAttempts` attempts. -/
def synthTrace (f : Nat → ℚ) (tol : ℚ) (maxAttempts : Nat) : List (ℚ × ℚ) :=
  synthGo f tol 0 maxAttempts 1

/-- The tolerance `1e-10` used by the notebook's retry loop. -/
def xyTol : ℚ := 1 / 10 ^ 10

/-- Trace of the notebook's loop: tolerance `1e-10`, budget 5 attempts. -/
def xyTrace (f : Nat → ℚ) : List (ℚ × ℚ) := synthTrace f xyTol 5

/-- How many times one synthesis call invokes
`solv.solve_for_unitary`. -/
def numSolverCalls (f : Nat → ℚ) : Nat := (xyTrace f).length

/-- The best distance tracked by the loop when it finishes (the value
printed as `got distance {dist}`). -/
def reportedDist (f : Nat → ℚ) : ℚ := ((xyTrace f).getLast?.map Prod.snd).getD 1

/-- The distance achieved by the `(mat, vec)` pair left in `vec` when the
loop finishes — the parameters stored in `result_dict` and written to the
`.qasm` file come from the **last executed attempt**, since `vec` is
overwritten on every attempt. -/
def emittedDist (f : Nat → ℚ) : ℚ := ((xyTrace f).getLast?.map Prod.fst).getD 1

/-- Attempt distances where attempt 0 achieves `1/2` and all later
attempts achieve `9/10`: the best attempt is the first one. -/
def fBestFirst : Nat → ℚ := fun i => if i = 0 then 1 / 2 else 9 / 10

/-!
The solver invocation (cell 11).

The solver is constructed as `MultiStart_Solver(24)` — the only argument
is the number of starts — and the options object receives the target
unitary, `standard_defaults`, `standard_smart_defaults` and the
assembly dictionary.  No random seed appears anywhere in the
construction or the options, so the configuration below records
`seed := none`.
-/

structure SynthesisCallConfig where
  numStarts : Nat
  targetId : Nat
  usesStandardDefaults : Bool
  usesSmartDefaults : Bool
  seed : Option Nat

/-- The synthesis invocation cell 11 makes for the target unitary with
abstract identity `targetId`: 24 starts, standard and smart defaults,
and no seed. -/
def theSynthesisCall (targetId : Nat) : SynthesisCallConfig :=
  ⟨24, targetId, true, true, none⟩

/-!
Matrix semantics of gate trees.

A gate on `n` qubits evaluates, given its real parameter list, to a
complex matrix indexed by bit assignments `Fin n → Fin 2` (an index type
of cardinality `2 ^ n`).  Leaves use the standard qsearch gate matrices
(`utils.rot_z`, `utils.rot_x`, the CNOT permutation, the identity);
Kronecker nodes take the Kronecker product, splitting the parameter list
by each child's parameter count in depth-first left-to-right order;
product nodes multiply the children's matrices in the listed order, and
fail (as the numpy product would) if a child's dimension does not match
the node's.  Evaluation is `Option`-valued: `none` embeds a Python
runtime error (missing parameter or dimension mismatch).
-/

open Kronecker

/-- Bit assignments to `n` qubits: the index type of an `n`-qubit
operator, of cardinality `2 ^ n`. -/
abbrev Bits (n : Nat) := Fin n → Fin 2

/-- One-qubit bit assignments are single bits. -/
def bitsOne : Bits 1 ≃ Fin 2 := Equiv.funUnique (Fin 1) (Fin 2)

/-- Two-qubit bit assignments are pairs of bits. -/
def bitsTwo : Bits 2 ≃ Fin 2 × Fin 2 := piFinTwoEquiv (fun _ => Fin 2)

/-- Splitting an `(m + n)`-qubit bit assignment into its first `m` and
last `n` bits. -/
def bitsSplit (m n : Nat) : Bits (m + n) ≃ Bits m × Bits n :=
  (Equiv.arrowCongr finSumFinEquiv.symm (Equiv.refl (Fin 2))).trans
    (Equiv.sumArrowEquivProdArrow (Fin m) (Fin n) (Fin 2))

/-- The matrix `utils.rot_z θ`: the Z rotation `diag(exp(-iθ/2), exp(iθ/2))`. -/
noncomputable def RZ2 (θ : ℝ) : Matrix (Fin 2) (Fin 2) ℂ :=
  !![Complex.exp (-(θ / 2 : ℝ) * Complex.I), 0;
     0, Complex.exp ((θ / 2 : ℝ) * Complex.I)]

/-- The matrix `utils.rot_x θ`: the X rotation with diagonal `cos(θ/2)` and
off-diagonal `-i sin(θ/2)`. -/
noncomputable def RX2 (θ : ℝ) : Matrix (Fin 2) (Fin 2) ℂ :=
  !![(Real.cos (θ / 2) : ℂ), -Complex.I * (Real.sin (θ / 2) : ℂ);
     -Complex.I * (Real.sin (θ / 2) : ℂ), (Real.cos (θ / 2) : ℂ)]

/-- The CNOT action on basis states: flip the second bit when the first
bit is set. -/
def cnotFun : Fin 2 × Fin 2 → Fin 2 × Fin 2 := fun p => (p.1, p.2 + p.1)

/-- The CNOT permutation matrix. -/
noncomputable def CNOT4 : Matrix (Fin 2 × Fin 2) (Fin 2 × Fin 2) ℂ :=
  Matrix.of fun i j => if i = cnotFun j then 1 else 0

/-- Z rotation as a one-qubit operator. -/
noncomputable def RZb (θ : ℝ) : Matrix (Bits 1) (Bits 1) ℂ :=
  Matrix.reindex bitsOne.symm bitsOne.symm (RZ2 θ)

/-- X rotation as a one-qubit operator. -/
noncomputable def RXb (θ : ℝ) : Matrix (Bits 1) (Bits 1) ℂ :=
  Matrix.reindex bitsOne.symm bitsOne.symm (RX2 θ)

/-- CNOT as a two-qubit operator. -/
noncomputable def CNOTb : Matrix (Bits 2) (Bits 2) ℂ :=
  Matrix.reindex bitsTwo.symm bitsTwo.symm CNOT4

/-- Kronecker product of an `m`-qubit and an `n`-qubit operator as an
`(m + n)`-qubit operator. -/
noncomputable def kronBits {m n : Nat} (A : Matrix (Bits m) (Bits m) ℂ)
    (B : Matrix (Bits n) (Bits n) ℂ) : Matrix (Bits (m + n)) (Bits (m + n)) ℂ :=
  Matrix.reindex (bitsSplit m n).symm (bitsSplit m n).symm (A ⊗ₖ B)

/-- Transport a matrix along an equality of qubit counts. -/
def castMat {m n : Nat} (h : m = n) (M : Matrix (Bits m) (Bits m) ℂ) :
    Matrix (Bits n) (Bits n) ℂ := h ▸ M

mutual

/-- Evaluate a gate tree on a parameter list, qsearch's
`Gate.matrix(v)`: rotations consume their one parameter (`none` if the
slice is empty, as `v[0]` would fail), Kronecker nodes split the
parameters between their children by parameter count, product nodes
multiply their children in the listed order. -/
noncomputable def gmat : (g : Gate) → List ℝ → Option (Matrix (Bits g.qudits) (Bits g.qudits) ℂ)
  | .identity, _ => some 1
  | .rz, p => p.head?.map RZb
  | .rx, p => p.head?.map RXb
  | .cnot, _ => some CNOTb
  | .kron a b, p =>
    match gmat a (p.take a.num_params), gmat b (p.drop a.num_params) with
    | some A, some B => some (kronBits A B)
    | _, _ => none
  | .prod gs, p => pmat (Gate.qudits (.prod gs)) gs p

/-- Evaluate a product's factor list against the expected dimension `q`:
multiply the factors' matrices left to right, failing when a factor's
dimension differs from `q` (the numpy matrix product would fail). -/
noncomputable def pmat (q : Nat) : List Gate → List ℝ → Option (Matrix (Bits q) (Bits q) ℂ)
  | [], _ => some 1
  | g :: gs, p =>
    match gmat g (p.take g.num_params), pmat q gs (p.drop g.num_params) with
    | some M, some Ms =>
      if h : g.qudits = q then some (castMat h M * Ms) else none
    | _, _ => none

end

mutual

/-- Well-formed gate trees: every factor of a product node acts on the
same number of qubits as the node itself. -/
def wfB : Gate → Bool
  | .identity => true
  | .rz => true
  | .rx => true
  | .cnot => true
  | .kron a b => wfB a && wfB b
  | .prod gs => wfL (Gate.qudits (.prod gs)) gs

/-- All gates in the list are well-formed and act on `q` qubits. -/
def wfL (q : Nat) : List Gate → Bool
  | [] => true
  | g :: gs => wfB g && (g.qudits == q) && wfL q gs

end

/-!
Theorems.
-/

theorem synthGo_snd_le (f : Nat → ℚ) (tol : ℚ) :
    ∀ (fuel i : Nat) (d : ℚ), ∀ x ∈ (synthGo f tol i fuel d).map Prod.snd, x ≤ d := by
  intro fuel
  induction fuel with
  | zero => intro i d x hx; simp [synthGo] at hx
  | succ n ih =>
    intro i d x hx
    simp only [synthGo, List.map_cons, List.mem_cons] at hx
    rcases hx with rfl | hx
    · split <;> [linarith [(by assumption : f i < d)]; exact le_refl d]
    · by_cases hlt : (if f i < d then f i else d) < tol
      · simp [hlt] at hx
      · simp only [hlt, if_neg, ite_false] at hx
        have := ih (i + 1) (if f i < d then f i else d) x hx
        split at this <;> [linarith; exact this]

theorem synthGo_snd_pairwise (f : Nat → ℚ) (tol : ℚ) :
    ∀ (fuel i : Nat) (d : ℚ),
      List.Pairwise (fun a b => b ≤ a) ((synthGo f tol i fuel d).map Prod.snd) := by
  intro fuel
  induction fuel with
  | zero => intro i d; simp [synthGo]
  | succ n ih =>
    intro i d
    simp only [synthGo, List.map_cons]
    refine List.Pairwise.cons ?_ ?_
    · intro x hx
      by_cases hlt : (if f i < d then f i else d) < tol
      · simp [hlt] at hx
      · simp only [hlt, ite_false] at hx
        exact synthGo_snd_le f tol n (i + 1) _ x hx
    · by_cases hlt : (if f i < d then f i else d) < tol
      · simp [hlt]
      · simp only [hlt, ite_false]
        exact ih (i + 1) _

theorem synthGo_length_le (f : Nat → ℚ) (tol : ℚ) :
    ∀ (fuel i : Nat) (d : ℚ), (synthGo f tol i fuel d).length ≤ fuel := by
  intro fuel
  induction fuel with
  | zero => intro i d; simp [synthGo]
  | succ n ih =>
    intro i d
    simp only [synthGo, List.length_cons]
    by_cases hlt : (if f i < d then f i else d) < tol
    · simp [hlt]
    · simp only [hlt, ite_false]
      exact Nat.succ_le_succ (ih (i + 1) _)

theorem synthGo_dropLast_ge (f : Nat → ℚ) (tol : ℚ) :
    ∀ (fuel i : Nat) (d : ℚ), ∀ pr ∈ (synthGo f tol i fuel d).dropLast, tol ≤ pr.2 := by
  intro fuel
  induction fuel with
  | zero => intro i d pr hpr; simp [synthGo] at hpr
  | succ n ih =>
    intro i d pr hpr
    by_cases hlt : (if f i < d then f i else d) < tol
    · simp [synthGo, hlt] at hpr
    · simp only [synthGo, hlt, ite_false] at hpr
      rcases hrest : synthGo f tol (i + 1) n (if f i < d then f i else d) with _ | ⟨y, ys⟩
      · rw [hrest] at hpr; simp at hpr
      · rw [hrest] at hpr
        rw [List.dropLast_cons₂, List.mem_cons] at hpr
        rcases hpr with rfl | hpr
        · exact le_of_not_lt hlt
        · rw [← hrest] at hpr
          exact ih (i + 1) _ pr hpr

theorem synthTrace_first_below (f : Nat → ℚ) (tol : ℚ) (m : Nat) (h : f 0 < tol) :
    synthTrace f tol (m + 1) = [(f 0, if f 0 < 1 then f 0 else 1)] := by
  have hd2 : (if f 0 < 1 then f 0 else 1) < tol := by
    split
    · exact h
    · have h1 : (1 : ℚ) ≤ f 0 := le_of_not_lt (by assumption)
      linarith
  simp [synthTrace, synthGo, hd2]

/-- Claim C1 (code bug).  The retry loop tracks the best distance in `dist`
but never saves the corresponding `(mat, vec)`; after the loop,
`result_dict["parameters"] = vec` stores the **last** executed attempt's
parameters.  On a call whose attempts achieve distances
`1/2, 9/10, 9/10, 9/10, 9/10` (tolerance never reached), the loop reports
best distance `1/2` yet emits the parameters of attempt 5, whose distance
is `9/10`: the reported best distance is **not** the distance of the
emitted parameters. -/
theorem c1_last_attempt_emitted :
    reportedDist fBestFirst = 1 / 2 ∧
    emittedDist fBestFirst = 9 / 10 ∧
    numSolverCalls fBestFirst = 5 ∧
    reportedDist fBestFirst ≠ emittedDist fBestFirst := by
  refine ⟨?_, ?_, ?_, ?_⟩ <;>
    norm_num [reportedDist, emittedDist, numSolverCalls, xyTrace, synthTrace,
      synthGo, xyTol, fBestFirst]

/-- Claim C3: across the retry attempts of one synthesis call the tracked
best distance never exceeds its starting value 1 and is non-increasing:
the recorded best after any attempt is `≤` the recorded best after every
earlier attempt, whatever distances the attempts return. -/
theorem c3_best_distance_monotone (f : Nat → ℚ) :
    (∀ x ∈ (xyTrace f).map Prod.snd, x ≤ 1) ∧
    List.Pairwise (fun a b => b ≤ a) ((xyTrace f).map Prod.snd) :=
  ⟨synthGo_snd_le f xyTol 5 0 1, synthGo_snd_pairwise f xyTol 5 0 1⟩

theorem c3_best_distance_monotone_witness : (1 : ℚ) ≤ 1 :=
  (c3_best_distance_monotone (fun _ => 1)).1 1
    (by norm_num [xyTrace, synthTrace, synthGo, xyTol])

/-- Claim C4: one synthesis call invokes the solver at most 5 times; every
attempt except possibly the last one was started with the best distance
still at or above the tolerance `1e-10` (so the loop stops as soon as the
best distance falls below it); and if the first attempt already achieves
a distance below the tolerance, exactly one solver invocation occurs. -/
theorem c4_retry_budget_and_early_exit (f : Nat → ℚ) :
    numSolverCalls f ≤ 5 ∧
    (∀ pr ∈ (xyTrace f).dropLast, xyTol ≤ pr.2) ∧
    (f 0 < xyTol → numSolverCalls f = 1) := by
  refine ⟨synthGo_length_le f xyTol 5 0 1, synthGo_dropLast_ge f xyTol 5 0 1, ?_⟩
  intro h
  unfold numSolverCalls xyTrace
  rw [show (5 : Nat) = 4 + 1 from rfl, synthTrace_first_below f xyTol 4 h]
  rfl

theorem c4_retry_budget_and_early_exit_witness :
    numSolverCalls (fun _ => 0) ≤ 5 ∧ numSolverCalls (fun _ => 0) = 1 :=
  ⟨(c4_retry_budget_and_early_exit (fun _ => 0)).1,
   (c4_retry_budget_and_early_exit (fun _ => 0)).2.2 (by norm_num [xyTol])⟩

/-- Claim C2 (counterexample).  `make_matchgate` contributes 10 rotation
parameters, not 6; the total for `make_MGC(3)` is 30, not 18; and for
even `N` the offset-B layer `make_layertype2 N` contains `⌊N/2⌋ - 1`
primitives, not `⌊N/2⌋` (shown at `N = 4`). -/
theorem c2_param_count_counterexample :
    Gate.num_params make_matchgate ≠ 6 ∧
    (make_MGC 3).map Gate.num_params ≠ some 18 ∧
    countPrim (make_layertype2 4) ≠ 4 / 2 := by decide

theorem countPrim_kron (a b : Gate) :
    countPrim (.kron a b) = countPrim a + countPrim b := by
  simp [countPrim]

theorem lt1_loop_countPrim : ∀ k, 1 ≤ k →
    ∃ g, lt1_loop k = some g ∧ countPrim g = k := by
  intro k
  induction k with
  | zero => intro h; omega
  | succ n ih =>
    intro _
    by_cases hn : n = 0
    · subst hn
      exact ⟨make_matchgate, by simp [lt1_loop], rfl⟩
    · obtain ⟨g, hg, hc⟩ := ih (Nat.one_le_iff_ne_zero.mpr hn)
      refine ⟨.kron g make_matchgate, ?_, ?_⟩
      · simp [lt1_loop, hn, hg]
      · rw [countPrim_kron, hc]
        rfl

theorem make_layertype1_countPrim : ∀ N, 2 ≤ N →
    (make_layertype1 N).map countPrim = some (N / 2) := by
  intro N hN
  have hk : 1 ≤ N / 2 := (Nat.one_le_div_iff (by norm_num)).mpr hN
  obtain ⟨g, hg, hc⟩ := lt1_loop_countPrim (N / 2) hk
  by_cases hpar : N % 2 = 0
  · simp [make_layertype1, hpar, hg, hc]
  · simp [make_layertype1, hpar, hg, countPrim_kron, hc]
    rfl

theorem lt2_loop_countPrim : ∀ k, countPrim (lt2_loop k) = k := by
  intro k
  induction k with
  | zero => rfl
  | succ n ih =>
    show countPrim (.kron (lt2_loop n) make_matchgate) = n + 1
    rw [countPrim_kron, ih]
    rfl

theorem make_layertype2_countPrim_odd : ∀ N, N % 2 = 1 →
    countPrim (make_layertype2 N) = N / 2 := by
  intro N hpar
  rw [make_layertype2, if_neg (by omega)]
  exact lt2_loop_countPrim (N / 2)

theorem make_layertype2_countPrim_even : ∀ N, N % 2 = 0 →
    countPrim (make_layertype2 N) = N / 2 - 1 := by
  intro N hpar
  rw [make_layertype2, if_pos hpar, countPrim_kron, lt2_loop_countPrim]
  rfl

/-- Claim C2 (amended): each primitive contributes exactly 10 rotation
parameters — five paired rotation layers each supplying 2 — for every
`N ≥ 2` a type-1 layer contains `⌊N/2⌋` primitives, for every `N` a
type-2 layer contains `⌊N/2⌋` primitives when `N` is odd and
`⌊N/2⌋ - 1` when `N` is even, and `make_MGC(3)` has 3 layers of
`⌊3/2⌋ = 1` primitive each for 30 parameters in total. -/
theorem c2_param_count_amended :
    Gate.num_params make_matchgate = 10 ∧
    num_params_list [Gate.kron .rz .rz, Gate.kron .rx .rx, Gate.kron .rx .rz] = 3 * 2 ∧
    (∀ N, 2 ≤ N → (make_layertype1 N).map countPrim = some (N / 2)) ∧
    (∀ N, N % 2 = 1 → countPrim (make_layertype2 N) = N / 2) ∧
    (∀ N, N % 2 = 0 → countPrim (make_layertype2 N) = N / 2 - 1) ∧
    (make_layertype1 3).map countPrim = some 1 ∧
    countPrim (make_layertype2 3) = 1 ∧
    (make_MGC 3).map Gate.num_params = some 30 :=
  ⟨by decide, by decide, make_layertype1_countPrim,
   make_layertype2_countPrim_odd, make_layertype2_countPrim_even,
   by decide, by decide, by decide⟩

theorem c2_param_count_amended_witness :
    (make_layertype1 4).map countPrim = some (4 / 2) ∧
    countPrim (make_layertype2 5) = 5 / 2 ∧
    countPrim (make_layertype2 4) = 4 / 2 - 1 :=
  ⟨c2_param_count_amended.2.2.1 4 (by decide),
   c2_param_count_amended.2.2.2.1 5 (by decide),
   c2_param_count_amended.2.2.2.2.1 4 (by decide)⟩

/-- Claim C5: `make_matchgate()` is a sequential composition over 2 qubits
of exactly 7 steps, in order: a paired Z-rotation layer, a paired
X-rotation layer, a CNOT, a mixed X/Z-rotation layer, a second CNOT, a
paired X-rotation layer, a paired Z-rotation layer — and every step acts
on 2 qubits. -/
theorem c5_matchgate_structure :
    make_matchgate.qudits = 2 ∧
    make_matchgate = .prod [.kron .rz .rz, .kron .rx .rx, .cnot, .kron .rx .rz,
                            .cnot, .kron .rx .rx, .kron .rz .rz] ∧
    [Gate.kron .rz .rz, .kron .rx .rx, .cnot, .kron .rx .rz,
     .cnot, .kron .rx .rx, .kron .rz .rz].length = 7 ∧
    ∀ s ∈ [Gate.kron .rz .rz, .kron .rx .rx, .cnot, .kron .rx .rz,
           .cnot, .kron .rx .rx, .kron .rz .rz], s.qudits = 2 :=
  ⟨rfl, rfl, rfl, by decide⟩

/-- Claim C9 (counterexample): no explicitly seeded random source is passed
into the solver — the synthesis call's configuration carries no seed at
all. -/
theorem c9_explicit_seed_counterexample :
    ¬ ∃ s : Nat, (theSynthesisCall 0).seed = some s := by
  rintro ⟨s, hs⟩
  simp [theSynthesisCall] at hs

/-- Claim C9 (amended): the solver is constructed with only the start
count 24, and neither the constructor call nor the options pass any
random seed; the random starting points therefore come from the
library's ambient randomness, and fixed-seed reproducibility is not
established by this code. -/
theorem c9_no_seed_amended (targetId : Nat) :
    (theSynthesisCall targetId).seed = none ∧
    (theSynthesisCall targetId).numStarts = 24 :=
  ⟨rfl, rfl⟩

theorem lt1_loop_spec : ∀ k, 1 ≤ k →
    ∃ g, lt1_loop k = some g ∧ g.qudits = 2 * k ∧ wfB g = true := by
  intro k
  induction k with
  | zero => intro h; omega
  | succ n ih =>
    intro _
    by_cases hn : n = 0
    · subst hn
      exact ⟨make_matchgate, by simp [lt1_loop], by decide, by decide⟩
    · obtain ⟨g, hg, hq, hw⟩ := ih (Nat.one_le_iff_ne_zero.mpr hn)
      refine ⟨.kron g make_matchgate, ?_, ?_, ?_⟩
      · simp [lt1_loop, hn, hg]
      · show g.qudits + make_matchgate.qudits = 2 * (n + 1)
        have : make_matchgate.qudits = 2 := by decide
        omega
      · show (wfB g && wfB make_matchgate) = true
        have : wfB make_matchgate = true := by decide
        simp [hw, this]

theorem make_layertype1_spec : ∀ N, 2 ≤ N →
    ∃ g, make_layertype1 N = some g ∧ g.qudits = N ∧ wfB g = true := by
  intro N hN
  have hk : 1 ≤ N / 2 := (Nat.one_le_div_iff (by norm_num)).mpr hN
  obtain ⟨g, hg, hq, hw⟩ := lt1_loop_spec (N / 2) hk
  by_cases hpar : N % 2 = 0
  · refine ⟨g, ?_, ?_, hw⟩
    · simp [make_layertype1, hpar, hg]
    · omega
  · refine ⟨.kron g .identity, ?_, ?_, ?_⟩
    · simp [make_layertype1, hpar, hg]
    · show g.qudits + Gate.qudits .identity = N
      have : Gate.qudits .identity = 1 := rfl
      omega
    · show (wfB g && wfB .identity) = true
      simp [hw, wfB]

theorem lt2_loop_spec : ∀ k, (lt2_loop k).qudits = 2 * k + 1 ∧ wfB (lt2_loop k) = true := by
  intro k
  induction k with
  | zero => exact ⟨rfl, rfl⟩
  | succ n ih =>
    constructor
    · show (lt2_loop n).qudits + make_matchgate.qudits = 2 * (n + 1) + 1
      have : make_matchgate.qudits = 2 := by decide
      omega
    · show (wfB (lt2_loop n) && wfB make_matchgate) = true
      have : wfB make_matchgate = true := by decide
      simp [ih.2, this]

theorem make_layertype2_spec : ∀ N, 1 ≤ N →
    (make_layertype2 N).qudits = N ∧ wfB (make_layertype2 N) = true := by
  intro N hN
  by_cases hpar : N % 2 = 0
  · have h2 : 2 ≤ N := by omega
    rw [make_layertype2, if_pos hpar]
    constructor
    · show (lt2_loop (N / 2 - 1)).qudits + Gate.qudits .identity = N
      have := (lt2_loop_spec (N / 2 - 1)).1
      have hid : Gate.qudits .identity = 1 := rfl
      omega
    · show (wfB (lt2_loop (N / 2 - 1)) && wfB .identity) = true
      simp [(lt2_loop_spec (N / 2 - 1)).2, wfB]
  · rw [make_layertype2, if_neg hpar]
    constructor
    · have := (lt2_loop_spec (N / 2)).1
      omega
    · exact (lt2_loop_spec (N / 2)).2

theorem layerAt_spec : ∀ N l, l < N →
    (layerAt N l).qudits = N ∧ wfB (layerAt N l) = true ∧
    (l % 2 ≠ 0 → some (layerAt N l) = make_layertype1 N) := by
  intro N l hl
  by_cases hpar : l % 2 = 0
  · rw [layerAt, if_pos hpar]
    have := make_layertype2_spec N (by omega)
    exact ⟨this.1, this.2, fun h => absurd hpar h⟩
  · rw [layerAt, if_neg hpar]
    have hN : 2 ≤ N := by omega
    obtain ⟨g, hg, hq, hw⟩ := make_layertype1_spec N hN
    rw [hg]
    exact ⟨hq, hw, fun _ => rfl⟩

theorem stackTo_spec : ∀ N k, k < N →
    (stackTo N k).qudits = N ∧ wfB (stackTo N k) = true := by
  intro N k
  induction k with
  | zero =>
    intro h
    have := layerAt_spec N 0 h
    exact ⟨this.1, this.2.1⟩
  | succ n ih =>
    intro h
    have hn := ih (by omega)
    have hl := layerAt_spec N (n + 1) h
    constructor
    · show (stackTo N n).qudits = N
      exact hn.1
    · show wfL (Gate.qudits (.prod [stackTo N n, layerAt N (n + 1)]))
        [stackTo N n, layerAt N (n + 1)] = true
      show wfL (stackTo N n).qudits [stackTo N n, layerAt N (n + 1)] = true
      simp [wfL, hn.1, hn.2, hl.1, hl.2.1]

theorem mgc_loop_eq : ∀ N k, k < N → mgc_loop N (k + 1) = some (stackTo N k) := by
  intro N k
  induction k with
  | zero =>
    intro _
    simp [mgc_loop, stackTo, layerAt]
  | succ n ih =>
    intro h
    have hrec := ih (by omega)
    by_cases hpar : (n + 1) % 2 = 0
    · rw [mgc_loop, if_pos hpar, if_neg (by omega : ¬ n + 1 = 0), hrec]
      show some (.prod [stackTo N n, make_layertype2 N]) = some (stackTo N (n + 1))
      rw [stackTo, layerAt, if_pos hpar]
    · rw [mgc_loop, if_neg hpar, hrec]
      have hN : 2 ≤ N := by omega
      obtain ⟨g, hg, _, _⟩ := make_layertype1_spec N hN
      rw [hg]
      show some (.prod [stackTo N n, g]) = some (stackTo N (n + 1))
      rw [stackTo, layerAt, if_neg hpar, hg]
      rfl

theorem make_MGC_eq (N : Nat) (h : 1 ≤ N) : make_MGC N = some (stackTo N (N - 1)) := by
  have hstep := mgc_loop_eq N (N - 1) (by omega)
  have hN : N - 1 + 1 = N := by omega
  rw [hN] at hstep
  exact hstep

theorem numLayers_lt2_loop : ∀ k, numLayers (lt2_loop k) = 1 := by
  intro k
  cases k <;> rfl

theorem numLayers_layertype2 : ∀ N, numLayers (make_layertype2 N) = 1 := by
  intro N
  by_cases h : N % 2 = 0
  · rw [make_layertype2, if_pos h]; rfl
  · rw [make_layertype2, if_neg h]; exact numLayers_lt2_loop _

theorem numLayers_stackTo : ∀ N k, numLayers (stackTo N k) = k + 1 := by
  intro N k
  induction k with
  | zero =>
    show numLayers (layerAt N 0) = 1
    rw [layerAt, if_pos (by norm_num)]
    exact numLayers_layertype2 N
  | succ n ih =>
    show numLayers (.prod [stackTo N n, layerAt N (n + 1)]) = n + 2
    rw [numLayers, ih]

/-- Claim C6: for every `N ≥ 1`, `make_MGC N` succeeds and is the
sequential stack of exactly `N` layers, with the offset-B layer
`make_layertype2 N` (identity on qubit 0) at even layer indices and the
offset-A layer `make_layertype1 N` at odd layer indices; and the
structure computed per timestep depends only on `N` — it is identical
for every timestep and target unitary. -/
theorem c6_mgc_layer_structure (N : Nat) (h : 1 ≤ N) :
    make_MGC N = some (stackTo N (N - 1)) ∧
    numLayers (stackTo N (N - 1)) = N ∧
    (∀ l, l < N → l % 2 = 0 → layerAt N l = make_layertype2 N) ∧
    (∀ l, l < N → l % 2 ≠ 0 → some (layerAt N l) = make_layertype1 N) ∧
    (∀ t t' : Nat, circ_struct N t = circ_struct N t') := by
  refine ⟨make_MGC_eq N h, ?_, ?_, ?_, fun t t' => rfl⟩
  · rw [numLayers_stackTo]; omega
  · intro l _ hpar
    rw [layerAt, if_pos hpar]
  · intro l hl hpar
    exact (layerAt_spec N l hl).2.2 hpar

theorem c6_mgc_layer_structure_witness :
    make_MGC 3 = some (stackTo 3 2) ∧ numLayers (stackTo 3 2) = 3 ∧
    some (layerAt 3 1) = make_layertype1 3 :=
  ⟨(c6_mgc_layer_structure 3 (by decide)).1,
   (c6_mgc_layer_structure 3 (by decide)).2.1,
   (c6_mgc_layer_structure 3 (by decide)).2.2.2.1 1 (by decide) (by decide)⟩

/-- Claim C10: `make_layertype1 1` fails (its matchgate loop never binds
the local `layer` before it is read), yet `make_MGC 1` never invokes
`make_layertype1` — it builds only the single even-indexed layer via
`make_layertype2` — and returns the single-qubit identity gate with zero
parameters; for every `N ≥ 2` both layer builders succeed and return a
gate on exactly `N` qubits. -/
theorem c10_layer_builders :
    make_layertype1 1 = none ∧
    make_MGC 1 = some .identity ∧
    make_layertype2 1 = .identity ∧
    Gate.num_params .identity = 0 ∧
    Gate.qudits .identity = 1 ∧
    (∀ N, 2 ≤ N → ∃ g, make_layertype1 N = some g ∧ g.qudits = N) ∧
    (∀ N, 2 ≤ N → (make_layertype2 N).qudits = N) := by
  refine ⟨rfl, rfl, rfl, rfl, rfl, ?_, ?_⟩
  · intro N hN
    obtain ⟨g, hg, hq, _⟩ := make_layertype1_spec N hN
    exact ⟨g, hg, hq⟩
  · intro N hN
    exact (make_layertype2_spec N (by omega)).1

theorem c10_layer_builders_witness :
    make_layertype1 1 = none ∧
    (∃ g, make_layertype1 4 = some g ∧ g.qudits = 4) ∧
    (make_layertype2 7).qudits = 7 :=
  ⟨c10_layer_builders.1,
   c10_layer_builders.2.2.2.2.2.1 4 (by decide),
   c10_layer_builders.2.2.2.2.2.2 7 (by decide)⟩

theorem exp_skew_star {z : ℂ} (h : (starRingEnd ℂ) z = -z) :
    Complex.exp z * (starRingEnd ℂ) (Complex.exp z) = 1 := by
  rw [← Complex.exp_conj, h, ← Complex.exp_add, add_neg_cancel, Complex.exp_zero]

theorem RZ2_unitary (θ : ℝ) : RZ2 θ ∈ Matrix.unitaryGroup (Fin 2) ℂ := by
  rw [Matrix.mem_unitaryGroup_iff]
  ext i j
  fin_cases i <;> fin_cases j <;>
    simp [RZ2, Matrix.mul_apply, Fin.sum_univ_two, Matrix.one_apply,
      Matrix.star_apply, Matrix.conjTranspose_apply] <;>
  · apply exp_skew_star
    simp [map_mul, map_ofNat, Complex.conj_I, Complex.conj_ofReal]

theorem RX2_unitary (θ : ℝ) : RX2 θ ∈ Matrix.unitaryGroup (Fin 2) ℂ := by
  have key : ((Real.cos (θ / 2) : ℂ)) * (Real.cos (θ / 2) : ℂ) +
      (Real.sin (θ / 2) : ℂ) * (Real.sin (θ / 2) : ℂ) = 1 := by
    have h := Real.sin_sq_add_cos_sq (θ / 2)
    norm_cast
    nlinarith [h]
  rw [Matrix.mem_unitaryGroup_iff]
  ext i j
  fin_cases i <;> fin_cases j <;>
    simp [RX2, Matrix.mul_apply, Fin.sum_univ_two, Matrix.one_apply,
      Matrix.star_apply, Matrix.conjTranspose_apply, star_mul', map_mul,
      Complex.conj_I, Complex.conj_ofReal, -Complex.ofReal_cos, -Complex.ofReal_sin] <;>
    first
      | ring1
      | linear_combination key - ((Real.sin (θ / 2) : ℂ)) ^ 2 * Complex.I_sq

theorem CNOT4_unitary : CNOT4 ∈ Matrix.unitaryGroup (Fin 2 × Fin 2) ℂ := by
  rw [Matrix.mem_unitaryGroup_iff]
  ext i j
  rw [Matrix.mul_apply]
  rw [Fintype.sum_prod_type]
  obtain ⟨i1, i2⟩ := i
  obtain ⟨j1, j2⟩ := j
  fin_cases i1 <;> fin_cases i2 <;> fin_cases j1 <;> fin_cases j2 <;>
    simp [CNOT4, cnotFun, Fin.sum_univ_two, Matrix.star_apply,
      Matrix.conjTranspose_apply, Matrix.one_apply, Prod.ext_iff]

theorem reindex_mem_unitaryGroup {m n : Type} [Fintype m] [DecidableEq m]
    [Fintype n] [DecidableEq n] (e : m ≃ n) {A : Matrix m m ℂ}
    (hA : A ∈ Matrix.unitaryGroup m ℂ) :
    Matrix.reindex e e A ∈ Matrix.unitaryGroup n ℂ := by
  rw [Matrix.mem_unitaryGroup_iff] at hA ⊢
  have hstar : star (Matrix.reindex e e A) = Matrix.reindex e e (star A) := by
    rw [Matrix.star_eq_conjTranspose, Matrix.conjTranspose_reindex,
      Matrix.star_eq_conjTranspose]
  rw [hstar, Matrix.reindex_apply, Matrix.reindex_apply,
    Matrix.submatrix_mul_equiv, hA, Matrix.submatrix_one_equiv]

theorem kronecker_star {l m : Type} (A : Matrix l l ℂ) (B : Matrix m m ℂ) :
    star (A ⊗ₖ B) = star A ⊗ₖ star B := by
  ext i j
  obtain ⟨i1, i2⟩ := i
  obtain ⟨j1, j2⟩ := j
  simp [Matrix.star_apply, Matrix.kroneckerMap_apply, star_mul', mul_comm]

theorem kron_mem_unitaryGroup {l m : Type} [Fintype l] [DecidableEq l]
    [Fintype m] [DecidableEq m] {A : Matrix l l ℂ} {B : Matrix m m ℂ}
    (hA : A ∈ Matrix.unitaryGroup l ℂ) (hB : B ∈ Matrix.unitaryGroup m ℂ) :
    A ⊗ₖ B ∈ Matrix.unitaryGroup (l × m) ℂ := by
  rw [Matrix.mem_unitaryGroup_iff] at hA hB ⊢
  rw [kronecker_star, ← Matrix.mul_kronecker_mul, hA, hB, Matrix.one_kronecker_one]

theorem kronBits_mem_unitaryGroup {m n : Nat} {A : Matrix (Bits m) (Bits m) ℂ}
    {B : Matrix (Bits n) (Bits n) ℂ} (hA : A ∈ Matrix.unitaryGroup (Bits m) ℂ)
    (hB : B ∈ Matrix.unitaryGroup (Bits n) ℂ) :
    kronBits A B ∈ Matrix.unitaryGroup (Bits (m + n)) ℂ :=
  reindex_mem_unitaryGroup _ (kron_mem_unitaryGroup hA hB)

theorem castMat_mem_unitaryGroup {m n : Nat} (h : m = n)
    {M : Matrix (Bits m) (Bits m) ℂ} (hM : M ∈ Matrix.unitaryGroup (Bits m) ℂ) :
    castMat h M ∈ Matrix.unitaryGroup (Bits n) ℂ := by
  subst h
  exact hM

theorem RZb_unitary (θ : ℝ) : RZb θ ∈ Matrix.unitaryGroup (Bits 1) ℂ :=
  reindex_mem_unitaryGroup _ (RZ2_unitary θ)

theorem RXb_unitary (θ : ℝ) : RXb θ ∈ Matrix.unitaryGroup (Bits 1) ℂ :=
  reindex_mem_unitaryGroup _ (RX2_unitary θ)

theorem CNOTb_unitary : CNOTb ∈ Matrix.unitaryGroup (Bits 2) ℂ :=
  reindex_mem_unitaryGroup _ CNOT4_unitary

mutual

theorem gmat_unitary : ∀ (g : Gate) (p : List ℝ), wfB g = true →
    p.length = g.num_params →
    ∃ M, gmat g p = some M ∧ M ∈ Matrix.unitaryGroup (Bits g.qudits) ℂ
  | .identity, p, _, _ => ⟨1, rfl, Submonoid.one_mem _⟩
  | .rz, p, _, hl => by
    obtain ⟨θ, rfl⟩ := List.length_eq_one.mp hl
    exact ⟨RZb θ, rfl, RZb_unitary θ⟩
  | .rx, p, _, hl => by
    obtain ⟨θ, rfl⟩ := List.length_eq_one.mp hl
    exact ⟨RXb θ, rfl, RXb_unitary θ⟩
  | .cnot, p, _, _ => ⟨CNOTb, rfl, CNOTb_unitary⟩
  | .kron a b, p, hw, hl => by
    rw [show wfB (.kron a b) = (wfB a && wfB b) from rfl, Bool.and_eq_true] at hw
    have hl' : p.length = a.num_params + b.num_params := hl
    have hla : (p.take a.num_params).length = a.num_params := by
      rw [List.length_take]
      omega
    have hlb : (p.drop a.num_params).length = b.num_params := by
      rw [List.length_drop]
      omega
    obtain ⟨A, hA, hAu⟩ := gmat_unitary a (p.take a.num_params) hw.1 hla
    obtain ⟨B, hB, hBu⟩ := gmat_unitary b (p.drop a.num_params) hw.2 hlb
    refine ⟨kronBits A B, ?_, kronBits_mem_unitaryGroup hAu hBu⟩
    simp only [gmat, hA, hB]
  | .prod gs, p, hw, hl => pmat_unitary (Gate.qudits (.prod gs)) gs p hw hl

theorem pmat_unitary : ∀ (q : Nat) (gs : List Gate) (p : List ℝ), wfL q gs = true →
    p.length = num_params_list gs →
    ∃ M, pmat q gs p = some M ∧ M ∈ Matrix.unitaryGroup (Bits q) ℂ
  | q, [], p, _, _ => ⟨1, rfl, Submonoid.one_mem _⟩
  | q, g :: gs, p, hw, hl => by
    rw [show wfL q (g :: gs) = (wfB g && (g.qudits == q) && wfL q gs) from rfl] at hw
    simp only [Bool.and_eq_true, beq_iff_eq] at hw
    obtain ⟨⟨hwg, hq⟩, hwgs⟩ := hw
    have hl' : p.length = g.num_params + num_params_list gs := hl
    have hla : (p.take g.num_params).length = g.num_params := by
      rw [List.length_take]
      omega
    have hlb : (p.drop g.num_params).length = num_params_list gs := by
      rw [List.length_drop]
      omega
    obtain ⟨M, hM, hMu⟩ := gmat_unitary g (p.take g.num_params) hwg hla
    obtain ⟨Ms, hMs, hMsu⟩ := pmat_unitary q gs (p.drop g.num_params) hwgs hlb
    refine ⟨castMat hq M * Ms, ?_,
      mul_mem (castMat_mem_unitaryGroup hq hMu) hMsu⟩
    simp only [pmat, hM, hMs]
    rw [dif_pos hq]

end

/-- Claim C7: for every `N ≥ 1`, the tree built by `make_MGC N` evaluates,
on every real parameter vector of the correct length, to a unitary
matrix on the `N`-qubit space, whose index type has cardinality
`2 ^ N` (a `2^N × 2^N` matrix). -/
theorem c7_evaluation_unitary (N : Nat) (h : 1 ≤ N) (g : Gate)
    (hg : make_MGC N = some g) (p : List ℝ) (hp : p.length = g.num_params) :
    g.qudits = N ∧ Fintype.card (Bits g.qudits) = 2 ^ N ∧
    ∃ M, gmat g p = some M ∧ M ∈ Matrix.unitaryGroup (Bits g.qudits) ℂ := by
  rw [make_MGC_eq N h] at hg
  obtain rfl : stackTo N (N - 1) = g := Option.some.inj hg
  have hspec := stackTo_spec N (N - 1) (by omega)
  refine ⟨hspec.1, ?_, gmat_unitary _ p hspec.2 hp⟩
  rw [hspec.1]
  simp [Fintype.card_fun]

theorem c7_evaluation_unitary_witness :
    (1 ≤ 1 ∧ make_MGC 1 = some Gate.identity ∧
      (List.nil (α := ℝ)).length = Gate.num_params Gate.identity) ∧
    Gate.qudits Gate.identity = 1 ∧
    (∃ M, gmat Gate.identity [] = some M ∧
      M ∈ Matrix.unitaryGroup (Bits (Gate.qudits Gate.identity)) ℂ) :=
  ⟨⟨le_refl 1, rfl, rfl⟩,
   (c7_evaluation_unitary 1 (le_refl 1) Gate.identity rfl [] rfl).1,
   (c7_evaluation_unitary 1 (le_refl 1) Gate.identity rfl [] rfl).2.2⟩
